import Mathlib

/-!
Verification of the ws-1in5-i2c OLED driver (src/src/lib.rs).

The driver talks to a 128x128 4-bit grayscale panel over an I2C
command/data channel.  The shallow embedding below models:

* the transport as a trace of wire writes (`Wire.cmd` for the 0x00
  sub-address, `Wire.data` for 0x40) together with an oracle
  `Nat → Bool` saying whether the n-th wire transfer succeeds
  (`true` = the transfer is accepted, `false` = the bus errors);
* the `WS1in5` struct as a state record (the `cleared` flag plus the
  transport spy);
* machine integers as `Nat`/`Int` with explicit wrapping: `u8`
  casts are `% 256`, the `u8` subtractions `xend/2 - 1` / `yend - 1`
  wrap (`(v + 255) % 256`), and `usize` subtraction wraps modulo
  `2 ^ 64` (release-profile Rust semantics, matching the spec's
  reading of the arithmetic);
* the external font/raster provider (rusttype + imageproc, an
  external collaborator per the spec) as an abstract capability
  `FontRes`: `lineHeight` stands for `ceil(ascent - descent)` cast to
  `i32`, `refMinX`/`refMaxX` for the underscore glyph's pixel
  bounding box, and `raster` for the already-rotated grayscale canvas
  produced for a string;
* `EnumeratePixels` as the row-major enumeration of an image given as
  a gray-value function.

Fallible operations return `Except Error Unit × WS1in5` (the state is
kept on error, as Rust's `&mut self` does).  List indexing (`buf[i]`)
is modeled with `List.getD`/`List.set`; theorems about the read/write
paths prove the accessed indices in bounds wherever the Rust code
relies on that.
-/

namespace Oled

/-- Screen width in pixels (`OLED_WIDTH` in the source). -/
def OLED_WIDTH : Nat := 128

/-- Screen height in pixels (`OLED_HEIGHT` in the source). -/
def OLED_HEIGHT : Nat := 128

/-- The driver's error enum.  The GPIO/I2C payloads (underlying
transport error details) are dropped: they belong to the external
transport. -/
inductive Error where
  | GPIO
  | I2C
  | OutOfBounds
deriving DecidableEq, Repr

/-- One wire transfer: a command byte (sub-address 0x00) or a data
byte (sub-address 0x40). -/
inductive Wire where
  | cmd (b : Nat)
  | data (b : Nat)
deriving DecidableEq, Repr

/-- The `WS1in5` struct: the `cleared` flag plus the transport spy
(trace of accepted wire transfers, a tick counting attempted
transfers, and the success oracle). -/
structure WS1in5 where
  cleared : Bool
  trace : List Wire
  tick : Nat
  oracle : Nat → Bool

/-- Oracle of a transport that accepts every transfer. -/
def allTrue : Nat → Bool := fun _ => true

/-- Oracle of a transport that rejects every transfer. -/
def allFalse : Nat → Bool := fun _ => false

/-- The freshly constructed state (before `init` runs): `cleared` is
true, nothing on the wire yet. -/
def initScreen (oracle : Nat → Bool) : WS1in5 :=
  ⟨true, [], 0, oracle⟩

/-- One attempted wire transfer.  On success the wire is recorded; on
failure the bus reports an I2C error and nothing is recorded. -/
def wireWrite (s : WS1in5) (w : Wire) : Except Error Unit × WS1in5 :=
  if s.oracle s.tick then
    (Except.ok (), { s with trace := s.trace ++ [w], tick := s.tick + 1 })
  else
    (Except.error Error.I2C, { s with tick := s.tick + 1 })

/-- A straight-line sequence of `?`-propagated wire writes, all with
the same constructor (`Wire.cmd` for `command`, `Wire.data` for the
0x40 writes). -/
def writeSeq (mk : Nat → Wire) (s : WS1in5) (bs : List Nat) : Except Error Unit × WS1in5 :=
  match bs with
  | [] => (Except.ok (), s)
  | b :: rest =>
    match wireWrite s (mk b) with
    | (Except.ok _, s') => writeSeq mk s' rest
    | (Except.error e, s') => (Except.error e, s')

/-- The fixed command bytes issued by `init` after `reset`, in source
order (the 100ms sleeps carry no state). -/
def INIT_CMDS : List Nat :=
  [0xae, 0x15, 0x00, 0x7f, 0x75, 0x00, 0x7f, 0x81, 0x80, 0xa0, 0x51,
   0xa1, 0x00, 0xa2, 0x00, 0xa4, 0xa8, 0x7f, 0xb1, 0xf1, 0xb3, 0x00,
   0xab, 0x01, 0xb6, 0x0f, 0xbe, 0x0f, 0xbc, 0x08, 0xd5, 0x62, 0xfd,
   0x12, 0xaf]

/-- `reset`: toggles the reset line (external GPIO, not traced) and
sets the `cleared` flag. -/
def reset (s : WS1in5) : WS1in5 :=
  { s with cleared := true }

/-- `init`: reset, then the fixed command sequence. -/
def init (s : WS1in5) : Except Error Unit × WS1in5 :=
  writeSeq Wire.cmd (reset s) INIT_CMDS

/-- `WS1in5::new`: builds the state (GPIO/I2C acquisition is external)
and runs `init`. -/
def new (oracle : Nat → Bool) : Except Error Unit × WS1in5 :=
  init (initScreen oracle)

/-- `has_cleared`. -/
def has_cleared (s : WS1in5) : Bool :=
  s.cleared

/-- The six command bytes of an in-bounds `set_windows` call.  The
`u8` subtractions `xend/2 - 1` and `yend - 1` wrap on underflow
(`(v + 255) % 256`). -/
def winCmds (xstart ystart xend yend : Nat) : List Nat :=
  [0x15, xstart / 2, (xend / 2 + 255) % 256, 0x75, ystart, (yend + 255) % 256]

/-- The bounds test of `set_windows`: some bound exceeds the panel
size (`> 128`; the value 128 itself passes). -/
def winOOB (xstart ystart xend yend : Nat) : Prop :=
  xstart > OLED_WIDTH ∨ ystart > OLED_HEIGHT ∨ xend > OLED_WIDTH ∨ yend > OLED_HEIGHT

instance (a b c d : Nat) : Decidable (winOOB a b c d) := by
  unfold winOOB
  infer_instance

/-- `set_windows`: silently succeeds without touching the transport if
any bound exceeds the panel size, otherwise issues the column-address
and row-address commands. -/
def set_windows (s : WS1in5) (xstart ystart xend yend : Nat) : Except Error Unit × WS1in5 :=
  if winOOB xstart ystart xend yend then
    (Except.ok (), s)
  else
    writeSeq Wire.cmd s (winCmds xstart ystart xend yend)

/-- Bitwise complement on a `u8` (`!0xf0u8`). -/
def u8_not (v : Nat) : Nat :=
  255 - v % 256

/-- `u8::rotate_right`. -/
def u8_ror (v n : Nat) : Nat :=
  v % 256 / 2 ^ (n % 8) + v % 256 % 2 ^ (n % 8) * 2 ^ (8 - n % 8)

/-- The body of `get_buffer`'s packing loop for one `(x, y, gray)`
triple:

```
let addr = x/2 + y*(width/2);
let color = pixel % 16;
let data: u8 = buf[addr] & ((!0xf0u8).rotate_right((x as u32 % 2) * 4));
buf[addr] &= data | ((color << 4) >> ((x % 2) * 4));
```

`buf[addr]` is modeled with `getD`/`set`; the in-bounds theorems show
the address stays inside the allocation whenever the pixel
coordinates lie within the declared `width x height`. -/
def packPixel (width : Nat) (buf : List Nat) (px : Nat × Nat × Nat) : List Nat :=
  let x := px.1
  let y := px.2.1
  let pixel := px.2.2
  let addr := x / 2 + y * (width / 2)
  let color := pixel % 16
  let data := buf.getD addr 0 &&& u8_ror (u8_not 0xf0) (x % 2 * 4)
  buf.set addr (buf.getD addr 0 &&& (data ||| (color <<< 4 >>> (x % 2 * 4))))

/-- `get_buffer`: allocate `(width/2)*height` bytes of `0xff`, reject
a pixel stream whose count differs from `height*width`, otherwise run
the packing loop. -/
def get_buffer (pixels : List (Nat × Nat × Nat)) (width height : Nat) :
    Except Error (List Nat) :=
  if pixels.length ≠ height * width then Except.error Error.OutOfBounds
  else Except.ok (pixels.foldl (packPixel width)
    (List.replicate (width / 2 * height) 0xff))

/-- The bytes read by `show_image`'s nested loop
(`buffer[j + width / 2 * i]` for `i < height`, `j < width/2`),
flattened in iteration order. -/
def rowMajorBytes (buffer : List Nat) (width height : Nat) : List Nat :=
  (List.range height).flatMap fun i =>
    (List.range (width / 2)).map fun j => buffer.getD (j + width / 2 * i) 0

/-- `show_image`: window the target rectangle (all four `u8` casts
wrap modulo 256, and `x as u8 + width as u8` is an 8-bit sum), reject
an undersized buffer, mark the panel not cleared, then stream the
bytes. -/
def show_image (s : WS1in5) (buffer : List Nat) (x y width height : Nat) :
    Except Error Unit × WS1in5 :=
  match set_windows s (x % 256) (y % 256) ((x % 256 + width % 256) % 256)
      ((y % 256 + height % 256) % 256) with
  | (Except.error e, s') => (Except.error e, s')
  | (Except.ok _, s') =>
    if buffer.length < width / 2 * height then (Except.error Error.OutOfBounds, s')
    else
      writeSeq Wire.data { s' with cleared := false } (rowMajorBytes buffer width height)

/-- `clear`: set the flag, then write an all-zero buffer of the
region's packed size. -/
def clear (s : WS1in5) (x y width height : Nat) : Except Error Unit × WS1in5 :=
  show_image { s with cleared := true }
    (List.replicate (width / 2 * height) 0x00) x y width height

/-- `clear_all`. -/
def clear_all (s : WS1in5) : Except Error Unit × WS1in5 :=
  clear s 0 0 OLED_WIDTH OLED_HEIGHT

/-- `size_to_pow_2` (the spec's `size_to_even`): bump each odd
component by one.  The source works on `i32`; overflow at `i32::MAX`
aside, `Int` models it exactly (both `%` tests only compare with 0). -/
def size_to_pow_2 (size : Int × Int) : Int × Int :=
  (if size.1 % 2 ≠ 0 then size.1 + 1 else size.1,
   if size.2 % 2 ≠ 0 then size.2 + 1 else size.2)

/-- The external font/raster capability (rusttype + imageproc are
external collaborators).  `lineHeight` is the already-computed
`(ascent - descent).ceil() as i32`; `refMinX`/`refMaxX` are the
underscore glyph's pixel bounding box edges used for the monospaced
cell width; `raster text x y` is the gray value at `(x, y)` of the
180-degree-rotated canvas the provider renders for `text`. -/
structure FontRes where
  lineHeight : Int
  refMinX : Int
  refMaxX : Int
  raster : List Char → Nat → Nat → Nat

/-- `get_text_size_full`: monospaced cell from the underscore glyph,
rounded even; total width is cell width times character count.
`as usize` on a negative `i32` is clamped by `Int.toNat` (real fonts
give nonnegative sizes). -/
def get_text_size_full (f : FontRes) (text : List Char) : Nat × Nat × Nat :=
  let height : Int := f.lineHeight
  let width : Int := f.refMaxX - f.refMinX
  let wh := size_to_pow_2 (width, height)
  (wh.1.toNat * text.length, wh.2.toNat, wh.1.toNat)

/-- `create_text`: rasterize `text` at the measured size (the canvas
content is the external provider's, abstracted by `FontRes.raster`). -/
def create_text (f : FontRes) (text : List Char) : (Nat → Nat → Nat) × Nat × Nat :=
  ((f.raster text, (get_text_size_full f text).1, (get_text_size_full f text).2.1) :
    (Nat → Nat → Nat) × Nat × Nat)

/-- Row-major `EnumeratePixels` of a `width x height` gray image. -/
def enumeratePixels (img : Nat → Nat → Nat) (width height : Nat) :
    List (Nat × Nat × Nat) :=
  (List.range height).flatMap fun y =>
    (List.range width).map fun x => (x, y, img x y)

/-- Wrapping `usize` subtraction (release-profile semantics of
`OLED_WIDTH - width - x`). -/
def usize_sub (a b : Nat) : Nat :=
  (a % 2 ^ 64 + (2 ^ 64 - b % 2 ^ 64)) % 2 ^ 64

/-- The shared write step of the text-drawing functions: write the
packed buffer at `(x, y)` or, when `flip` is set, at
`(OLED_WIDTH - w - x, OLED_HEIGHT - h - y)` (wrapping `usize`
subtraction). -/
def drawStep (s : WS1in5) (buffer : List Nat) (x y w h : Nat) (flip : Bool) :
    Except Error Unit × WS1in5 :=
  if flip then
    show_image s buffer (usize_sub (usize_sub OLED_WIDTH w) x)
      (usize_sub (usize_sub OLED_HEIGHT h) y) w h
  else show_image s buffer x y w h

/-- `draw_text`: rasterize, pack, write at `(x, y)` or at the mirrored
position when `flip` is set, return the cursor advance. -/
def draw_text (s : WS1in5) (f : FontRes) (x y : Nat) (text : List Char) (flip : Bool) :
    Except Error (Nat × Nat) × WS1in5 :=
  let ct := create_text f text
  match get_buffer (enumeratePixels ct.1 ct.2.1 ct.2.2) ct.2.1 ct.2.2 with
  | Except.error e => (Except.error e, s)
  | Except.ok buffer =>
    match drawStep s buffer x y ct.2.1 ct.2.2 flip with
    | (Except.ok _, s') => (Except.ok (x + ct.2.1, y + ct.2.2), s')
    | (Except.error e, s') => (Except.error e, s')

/-- `draw_paragraph_at`: per-character greedy layout.  Whitespace is
measured through the underscore glyph and not drawn; the cursor
advances by the character's width and wraps when the anticipated next
cell would overflow the panel width. -/
def draw_paragraph_at (s : WS1in5) (f : FontRes) (x y : Nat) (text : List Char)
    (flip : Bool) : Except Error (Nat × Nat) × WS1in5 :=
  match text with
  | [] => (Except.ok (x, y), s)
  | c :: rest =>
    let ct := if c.isWhitespace then create_text f ['_'] else create_text f [c]
    match get_buffer (enumeratePixels ct.1 ct.2.1 ct.2.2) ct.2.1 ct.2.2 with
    | Except.error e => (Except.error e, s)
    | Except.ok buffer =>
      match (if c.isWhitespace then (Except.ok (), s)
             else drawStep s buffer x y ct.2.1 ct.2.2 flip) with
      | (Except.error e, s') => (Except.error e, s')
      | (Except.ok _, s') =>
        if x + ct.2.1 + ct.2.1 > OLED_WIDTH then
          draw_paragraph_at s' f 0 (y + ct.2.2) rest flip
        else
          draw_paragraph_at s' f (x + ct.2.1) y rest flip

/-- Extract the buffer from a successful `get_buffer` result. -/
def getOk (r : Except Error (List Nat)) : List Nat :=
  match r with
  | Except.ok b => b
  | Except.error _ => []

/-- The data bytes of a trace, in order. -/
def dataBytes (tr : List Wire) : List Nat :=
  tr.filterMap fun w =>
    match w with
    | Wire.data b => some b
    | Wire.cmd _ => none

/-- The nibble of the packed buffer that pixel `(x, y)` maps to: the
high nibble of byte `x/2 + y*(width/2)` when `x` is even, the low one
when `x` is odd. -/
def nibAt (width : Nat) (buf : List Nat) (x y : Nat) : Nat :=
  if x % 2 = 0 then buf.getD (x / 2 + y * (width / 2)) 0 / 16
  else buf.getD (x / 2 + y * (width / 2)) 0 % 16

/-- The size `draw_paragraph_at` measures for one character (the
underscore stands in for whitespace). -/
def charDrawSize (f : FontRes) (c : Char) : Nat × Nat :=
  let ct := if c.isWhitespace then create_text f ['_'] else create_text f [c]
  (ct.2.1, ct.2.2)

/-- One step of `draw_paragraph_at`'s cursor: advance by the measured
width, wrap when the anticipated next cell would overflow the panel. -/
def cursorStep (f : FontRes) (p : Nat × Nat) (c : Char) : Nat × Nat :=
  let wh := charDrawSize f c
  if p.1 + wh.1 + wh.1 > OLED_WIDTH then (0, p.2 + wh.2) else (p.1 + wh.1, p.2)

/-- The wire transfers one `draw_paragraph_at` step appends for
character `c` at cursor `p`: nothing for whitespace; otherwise
`show_image`'s windowing commands at the (possibly flipped) cursor
followed by the character's packed raster bytes. -/
def charTrace (f : FontRes) (flip : Bool) (p : Nat × Nat) (c : Char) : List Wire :=
  if c.isWhitespace then []
  else
    let ct := create_text f [c]
    let buffer := getOk (get_buffer (enumeratePixels ct.1 ct.2.1 ct.2.2) ct.2.1 ct.2.2)
    let px := if flip then usize_sub (usize_sub OLED_WIDTH ct.2.1) p.1 else p.1
    let py := if flip then usize_sub (usize_sub OLED_HEIGHT ct.2.2) p.2 else p.2
    (if winOOB (px % 256) (py % 256) ((px % 256 + ct.2.1 % 256) % 256)
        ((py % 256 + ct.2.2 % 256) % 256) then []
     else (winCmds (px % 256) (py % 256) ((px % 256 + ct.2.1 % 256) % 256)
            ((py % 256 + ct.2.2 % 256) % 256)).map Wire.cmd)
    ++ (buffer.take (ct.2.1 / 2 * ct.2.2)).map Wire.data

/-- One step of `draw_paragraph_at`'s observable behaviour: the cursor
advances by `cursorStep` and the trace grows by the character's
`charTrace` at the running cursor. -/
def paraStep (f : FontRes) (flip : Bool) (st : (Nat × Nat) × List Wire) (c : Char) :
    (Nat × Nat) × List Wire :=
  (cursorStep f st.1 c, st.2 ++ charTrace f flip st.1 c)

/-- A monospaced mock font whose every glyph measures 10 x 10 pixels. -/
def mockFont : FontRes :=
  ⟨10, 0, 10, fun _ _ _ => 0⟩

/-! ### Transport-level lemmas -/

theorem writeSeq_allTrue (mk : Nat → Wire) (bs : List Nat) :
    ∀ s : WS1in5, s.oracle = allTrue →
      writeSeq mk s bs =
        (Except.ok (), ⟨s.cleared, s.trace ++ bs.map mk, s.tick + bs.length, s.oracle⟩) := by
  induction bs with
  | nil =>
    intro s _
    simp [writeSeq]
  | cons b rest ih =>
    intro s h
    have ht : s.oracle s.tick = true := by rw [h]; rfl
    rw [writeSeq, wireWrite, if_pos ht]
    dsimp only
    rw [ih { s with trace := s.trace ++ [mk b], tick := s.tick + 1 } (by simpa using h)]
    simp [WS1in5.mk.injEq]
    omega

theorem writeSeq_cleared (mk : Nat → Wire) (bs : List Nat) :
    ∀ s : WS1in5, (writeSeq mk s bs).2.cleared = s.cleared := by
  induction bs with
  | nil => intro s; rfl
  | cons b rest ih =>
    intro s
    by_cases hb : s.oracle s.tick = true
    · rw [writeSeq, wireWrite, if_pos hb, ih]
    · rw [writeSeq, wireWrite, if_neg hb]

theorem set_windows_noop (s : WS1in5) (xs ys xe ye : Nat) (h : winOOB xs ys xe ye) :
    set_windows s xs ys xe ye = (Except.ok (), s) := by
  rw [set_windows, if_pos h]

theorem set_windows_cmds (s : WS1in5) (xs ys xe ye : Nat) (ho : s.oracle = allTrue)
    (h : ¬ winOOB xs ys xe ye) :
    set_windows s xs ys xe ye =
      (Except.ok (), ⟨s.cleared, s.trace ++ (winCmds xs ys xe ye).map Wire.cmd,
        s.tick + 6, s.oracle⟩) := by
  rw [set_windows, if_neg h, writeSeq_allTrue Wire.cmd _ s ho]
  rfl

theorem dataBytes_append (t u : List Wire) :
    dataBytes (t ++ u) = dataBytes t ++ dataBytes u := by
  simp [dataBytes, List.filterMap_append]

theorem dataBytes_cmds (l : List Nat) : dataBytes (l.map Wire.cmd) = [] := by
  induction l with
  | nil => rfl
  | cons b rest ih => simp [dataBytes]

theorem dataBytes_datas (l : List Nat) : dataBytes (l.map Wire.data) = l := by
  induction l with
  | nil => rfl
  | cons b rest ih => simpa [dataBytes] using ih

theorem show_image_ok_char (s : WS1in5) (buffer : List Nat) (x y w h : Nat)
    (ho : s.oracle = allTrue) (hlen : w / 2 * h ≤ buffer.length) :
    show_image s buffer x y w h =
      (Except.ok (), ⟨false,
        s.trace
          ++ (if winOOB (x % 256) (y % 256) ((x % 256 + w % 256) % 256)
                  ((y % 256 + h % 256) % 256) then []
              else (winCmds (x % 256) (y % 256) ((x % 256 + w % 256) % 256)
                      ((y % 256 + h % 256) % 256)).map Wire.cmd)
          ++ (rowMajorBytes buffer w h).map Wire.data,
        s.tick
          + (if winOOB (x % 256) (y % 256) ((x % 256 + w % 256) % 256)
                 ((y % 256 + h % 256) % 256) then 0 else 6)
          + (rowMajorBytes buffer w h).length,
        s.oracle⟩) := by
  by_cases hg : winOOB (x % 256) (y % 256) ((x % 256 + w % 256) % 256)
      ((y % 256 + h % 256) % 256)
  · rw [show_image, set_windows_noop _ _ _ _ _ hg]
    dsimp only
    rw [if_neg (Nat.not_lt.mpr hlen), writeSeq_allTrue Wire.data _ _ (by simpa using ho),
      if_pos hg, if_pos hg]
    simp
  · rw [show_image, set_windows_cmds _ _ _ _ _ ho hg]
    dsimp only
    rw [if_neg (Nat.not_lt.mpr hlen), writeSeq_allTrue Wire.data _ _ (by simpa using ho),
      if_neg hg, if_neg hg]

theorem mod256_mod (a : Nat) : a % 256 % 256 = a % 256 :=
  Nat.mod_mod_of_dvd a dvd_rfl

/-! ### Claim C8: size_to_pow_2 rounds each odd component up by one -/

/-- C8: `size_to_pow_2` returns `(a + 1 if a odd else a, b + 1 if b odd
else b)`; both components of the result are even, even inputs are
unchanged, and the spec's three examples hold. -/
theorem size_to_pow_2_spec :
    (∀ a b : Int, size_to_pow_2 (a, b) =
        ((if a % 2 = 0 then a else a + 1), (if b % 2 = 0 then b else b + 1)))
    ∧ (∀ a b : Int, (size_to_pow_2 (a, b)).1 % 2 = 0 ∧ (size_to_pow_2 (a, b)).2 % 2 = 0)
    ∧ (∀ a b : Int, size_to_pow_2 (2 * a, 2 * b) = (2 * a, 2 * b))
    ∧ size_to_pow_2 (3, 4) = (4, 4)
    ∧ size_to_pow_2 (4, 5) = (4, 6)
    ∧ size_to_pow_2 (4, 4) = (4, 4) := by
  refine ⟨?_, ?_, ?_, by decide, by decide, by decide⟩
  · intro a b
    by_cases h1 : a % 2 = 0 <;> by_cases h2 : b % 2 = 0 <;>
      simp [size_to_pow_2, h1, h2]
  · intro a b
    have h1 : a % 2 = 0 ∨ a % 2 = 1 := Int.emod_two_eq a
    have h2 : b % 2 = 0 ∨ b % 2 = 1 := Int.emod_two_eq b
    constructor
    · rcases h1 with h | h
      · simp [size_to_pow_2, h]
      · simp [size_to_pow_2, h]
        omega
    · rcases h2 with h | h
      · simp [size_to_pow_2, h]
      · simp [size_to_pow_2, h]
        omega
  · intro a b
    simp [size_to_pow_2, Int.mul_emod_right]

/-! ### Claim C4: set_windows clipping policy and command parameters -/

/-- C4: `set_windows` with any bound above 128 returns success without
touching the transport; otherwise (with a transport that accepts the
writes) it issues the column-address command with `(xstart/2,
xend/2 - 1)` followed by the row-address command with `(ystart,
yend - 1)`. -/
theorem set_windows_spec :
    (∀ (s : WS1in5) (xstart ystart xend yend : Nat),
        (xstart > 128 ∨ ystart > 128 ∨ xend > 128 ∨ yend > 128) →
        set_windows s xstart ystart xend yend = (Except.ok (), s))
    ∧ (∀ (s : WS1in5) (xstart ystart xend yend : Nat),
        s.oracle = allTrue →
        xstart ≤ 128 → ystart ≤ 128 → xend ≤ 128 → yend ≤ 128 →
        2 ≤ xend → 1 ≤ yend →
        set_windows s xstart ystart xend yend =
          (Except.ok (), ⟨s.cleared,
            s.trace ++
              [Wire.cmd 0x15, Wire.cmd (xstart / 2), Wire.cmd (xend / 2 - 1),
               Wire.cmd 0x75, Wire.cmd ystart, Wire.cmd (yend - 1)],
            s.tick + 6, s.oracle⟩)) := by
  constructor
  · intro s xs ys xe ye h
    exact set_windows_noop s xs ys xe ye h
  · intro s xs ys xe ye ho h1 h2 h3 h4 h5 h6
    have hne : ¬ winOOB xs ys xe ye := by
      unfold winOOB OLED_WIDTH OLED_HEIGHT
      omega
    rw [set_windows_cmds s xs ys xe ye ho hne]
    have e1 : (xe / 2 + 255) % 256 = xe / 2 - 1 := by omega
    have e2 : (ye + 255) % 256 = ye - 1 := by omega
    simp [winCmds, e1, e2]

/-- Closed instance of `set_windows_spec`: a bound of 200 is a silent
no-op, and an in-range window `(0, 0, 2, 1)` issues exactly the six
expected command bytes. -/
theorem set_windows_spec_witness :
    ((200 : Nat) > 128 ∨ (0 : Nat) > 128 ∨ (2 : Nat) > 128 ∨ (1 : Nat) > 128)
    ∧ set_windows (initScreen allTrue) 200 0 2 1 = (Except.ok (), initScreen allTrue)
    ∧ (initScreen allTrue).oracle = allTrue
    ∧ set_windows (initScreen allTrue) 0 0 2 1 =
        (Except.ok (), ⟨true, [Wire.cmd 0x15, Wire.cmd 0, Wire.cmd 0,
          Wire.cmd 0x75, Wire.cmd 0, Wire.cmd 0], 6, allTrue⟩) := by
  refine ⟨Or.inl (by decide), ?_, rfl, ?_⟩
  · exact set_windows_spec.1 (initScreen allTrue) 200 0 2 1 (Or.inl (by decide))
  · exact set_windows_spec.2 (initScreen allTrue) 0 0 2 1 rfl (by decide) (by decide)
      (by decide) (by decide) (by decide) (by decide)

/-! ### Claim C10: show_image truncates coordinates to 8 bits -/

/-- C10: `show_image` only uses `x` and `y` through their `u8` casts,
so any call is equivalent to the call with `x % 256`, `y % 256`; in
particular `x = 256` is windowed as `x = 0` and still streams its
bytes instead of being treated as out of range. -/
theorem show_image_truncates_u8 :
    (∀ (s : WS1in5) (buffer : List Nat) (x y width height : Nat),
        show_image s buffer x y width height =
          show_image s buffer (x % 256) (y % 256) width height)
    ∧ (show_image (initScreen allTrue) [0xAB] 256 0 2 1).1 = Except.ok ()
    ∧ dataBytes (show_image (initScreen allTrue) [0xAB] 256 0 2 1).2.trace = [0xAB]
    ∧ (show_image (initScreen allTrue) [0xAB] 256 0 2 1).2.trace =
        (show_image (initScreen allTrue) [0xAB] 0 0 2 1).2.trace := by
  refine ⟨?_, rfl, rfl, rfl⟩
  intro s buffer x y width height
  simp only [show_image, mod256_mod]

theorem map_range_getD (buf : List Nat) (k m : Nat) (h : m + k ≤ buf.length) :
    (List.range k).map (fun j => buf.getD (j + m) 0) = (buf.drop m).take k := by
  induction k with
  | zero => simp
  | succ n ih =>
    rw [List.range_succ, List.map_append, ih (by omega), List.take_succ]
    congr 1
    rw [List.getElem?_drop]
    have hlt : m + n < buf.length := by omega
    rw [List.getElem?_eq_getElem hlt]
    have e : n + m = m + n := Nat.add_comm n m
    simp [List.getD_eq_getElem buf 0 (show n + m < buf.length by omega), e,
      List.getElem?_eq_getElem hlt]

theorem rowMajorBytes_take (buf : List Nat) (w : Nat) :
    ∀ h : Nat, w / 2 * h ≤ buf.length → rowMajorBytes buf w h = buf.take (w / 2 * h) := by
  intro h
  induction h with
  | zero =>
    intro _
    simp [rowMajorBytes]
  | succ n ih =>
    intro hle
    have hle' : w / 2 * n + w / 2 ≤ buf.length := by
      calc w / 2 * n + w / 2 = w / 2 * (n + 1) := by ring
        _ ≤ buf.length := hle
    have ihn := ih (by omega)
    unfold rowMajorBytes at ihn ⊢
    rw [List.range_succ, List.flatMap_append, ihn,
      show w / 2 * (n + 1) = w / 2 * n + w / 2 by ring, List.take_add]
    congr 1
    simp only [List.flatMap_cons, List.flatMap_nil, List.append_nil]
    exact map_range_getD buf (w / 2) (w / 2 * n) hle'

/-! ### Claim C5: what show_image streams on success -/

/-- C5 (amended): on success `show_image` streams exactly the first
`(width/2)*height` bytes of the buffer, in row-major order, to the
data channel — all of the buffer when its length is exactly that —
and the streaming also happens when the windowing call was an
out-of-range silent no-op (the `if` branch of the trace). -/
theorem show_image_streams_spec (s : WS1in5) (buffer : List Nat) (x y width height : Nat)
    (ho : s.oracle = allTrue) (hlen : width / 2 * height ≤ buffer.length) :
    (show_image s buffer x y width height).1 = Except.ok ()
    ∧ (show_image s buffer x y width height).2.cleared = false
    ∧ (show_image s buffer x y width height).2.trace =
        s.trace
          ++ (if winOOB (x % 256) (y % 256) ((x % 256 + width % 256) % 256)
                  ((y % 256 + height % 256) % 256) then []
              else (winCmds (x % 256) (y % 256) ((x % 256 + width % 256) % 256)
                      ((y % 256 + height % 256) % 256)).map Wire.cmd)
          ++ (buffer.take (width / 2 * height)).map Wire.data := by
  refine ⟨?_, ?_, ?_⟩
  · rw [show_image_ok_char s buffer x y width height ho hlen]
  · rw [show_image_ok_char s buffer x y width height ho hlen]
  · rw [show_image_ok_char s buffer x y width height ho hlen,
      rowMajorBytes_take buffer width height hlen]

/-- C5 counterexample to the claim as stated: a successful
`show_image` with a 2-byte buffer but a 1-byte region streams only
the first byte, not every byte of the supplied buffer. -/
theorem show_image_drops_extra_bytes :
    (show_image (initScreen allTrue) [5, 6] 0 0 2 1).1 = Except.ok ()
    ∧ dataBytes (show_image (initScreen allTrue) [5, 6] 0 0 2 1).2.trace = [5]
    ∧ dataBytes (show_image (initScreen allTrue) [5, 6] 0 0 2 1).2.trace ≠ [5, 6] :=
  ⟨rfl, rfl, by decide⟩

/-- Closed instance of `show_image_streams_spec`, at out-of-range
coordinates: the windowing is a silent no-op, yet the byte is still
streamed. -/
theorem show_image_streams_spec_witness :
    ((initScreen allTrue).oracle = allTrue)
    ∧ 2 / 2 * 1 ≤ ([7] : List Nat).length
    ∧ (show_image (initScreen allTrue) [7] 200 0 2 1).1 = Except.ok ()
    ∧ (show_image (initScreen allTrue) [7] 200 0 2 1).2.cleared = false
    ∧ (show_image (initScreen allTrue) [7] 200 0 2 1).2.trace = [Wire.data 7] := by
  refine ⟨rfl, by decide, ?_⟩
  exact show_image_streams_spec (initScreen allTrue) [7] 200 0 2 1 rfl (by decide)

/-! ### Claim C3: the OutOfBounds failure path of show_image -/

/-- C3 (amended): with a transport that accepts the windowing
commands, `show_image` returns `OutOfBounds` whenever the buffer is
shorter than `(width/2)*height`, and in that case the cleared flag
and the streamed data are untouched.  The flag is set to false right
after the length check passes — before streaming — for any transport
behaviour. -/
theorem show_image_oob_spec :
    (∀ (s : WS1in5) (buffer : List Nat) (x y width height : Nat),
        s.oracle = allTrue →
        buffer.length < width / 2 * height →
        (show_image s buffer x y width height).1 = Except.error Error.OutOfBounds
        ∧ (show_image s buffer x y width height).2.cleared = s.cleared
        ∧ dataBytes (show_image s buffer x y width height).2.trace = dataBytes s.trace)
    ∧ (∀ (s : WS1in5) (buffer : List Nat) (x y width height : Nat),
        ¬ buffer.length < width / 2 * height →
        (set_windows s (x % 256) (y % 256) ((x % 256 + width % 256) % 256)
            ((y % 256 + height % 256) % 256)).1 = Except.ok () →
        (show_image s buffer x y width height).2.cleared = false) := by
  constructor
  · intro s buffer x y width height ho hlt
    by_cases hg : winOOB (x % 256) (y % 256) ((x % 256 + width % 256) % 256)
        ((y % 256 + height % 256) % 256)
    · rw [show_image, set_windows_noop _ _ _ _ _ hg]
      dsimp only
      rw [if_pos hlt]
      exact ⟨rfl, rfl, rfl⟩
    · rw [show_image, set_windows_cmds _ _ _ _ _ ho hg]
      dsimp only
      rw [if_pos hlt]
      refine ⟨rfl, rfl, ?_⟩
      dsimp only
      rw [dataBytes_append, dataBytes_cmds, List.append_nil]
  · intro s buffer x y width height hlen hok
    rcases hsw : set_windows s (x % 256) (y % 256) ((x % 256 + width % 256) % 256)
        ((y % 256 + height % 256) % 256) with ⟨r, s2⟩
    rw [hsw] at hok
    dsimp only at hok
    subst hok
    rw [show_image, hsw]
    dsimp only
    rw [if_neg hlen, writeSeq_cleared]

/-- C3 counterexample to the claim's ordering sentence: with a
transport that rejects every transfer and out-of-range coordinates
(so windowing no-ops), `show_image` fails with an I2C error having
streamed nothing, yet the cleared flag is already false. -/
theorem show_image_flag_false_without_stream :
    (initScreen allFalse).cleared = true
    ∧ (show_image (initScreen allFalse) [5] 200 0 2 1).1 = Except.error Error.I2C
    ∧ (show_image (initScreen allFalse) [5] 200 0 2 1).2.cleared = false
    ∧ dataBytes (show_image (initScreen allFalse) [5] 200 0 2 1).2.trace = [] :=
  ⟨rfl, rfl, rfl, rfl⟩

/-- Closed instance of `show_image_oob_spec`: an empty buffer on a
one-byte region fails with `OutOfBounds` and preserves the flag. -/
theorem show_image_oob_spec_witness :
    ((initScreen allTrue).oracle = allTrue)
    ∧ (([] : List Nat).length < 2 / 2 * 1)
    ∧ (show_image (initScreen allTrue) [] 0 0 2 1).1 = Except.error Error.OutOfBounds
    ∧ (show_image (initScreen allTrue) [] 0 0 2 1).2.cleared = (initScreen allTrue).cleared
    ∧ dataBytes (show_image (initScreen allTrue) [] 0 0 2 1).2.trace =
        dataBytes (initScreen allTrue).trace := by
  refine ⟨rfl, by decide, ?_⟩
  exact show_image_oob_spec.1 (initScreen allTrue) [] 0 0 2 1 rfl (by decide)

/-! ### Claim C2: the cleared flag across the API -/

/-- C2 evidence: `has_cleared` is true after construction and after
`reset`, false after a successful `show_image` or text draw — but
also false after a successful `clear` (and hence `clear_all`, which
is definitionally a full-screen `clear`): `clear` sets the flag and
then calls `show_image`, whose success path unconditionally resets it
to false, making `clear`'s own assignment a dead store and
contradicting `has_cleared`'s documentation. -/
theorem cleared_flag_eval :
    has_cleared (new allTrue).2 = true
    ∧ (new allTrue).1 = Except.ok ()
    ∧ (show_image (initScreen allTrue) [9] 0 0 2 1).1 = Except.ok ()
    ∧ has_cleared (show_image (initScreen allTrue) [9] 0 0 2 1).2 = false
    ∧ has_cleared (reset (show_image (initScreen allTrue) [9] 0 0 2 1).2) = true
    ∧ (clear (initScreen allTrue) 0 0 2 1).1 = Except.ok ()
    ∧ has_cleared (clear (initScreen allTrue) 0 0 2 1).2 = false
    ∧ (∀ s : WS1in5, clear_all s = clear s 0 0 OLED_WIDTH OLED_HEIGHT)
    ∧ (draw_text (initScreen allTrue) mockFont 0 0 ['a'] false).1 = Except.ok (10, 10)
    ∧ has_cleared (draw_text (initScreen allTrue) mockFont 0 0 ['a'] false).2 = false :=
  ⟨rfl, rfl, rfl, rfl, rfl, rfl, rfl, fun _ => rfl, rfl, rfl⟩

/-! ### Text-path plumbing lemmas -/

theorem length_enumeratePixels (img : Nat → Nat → Nat) (w : Nat) :
    ∀ h : Nat, (enumeratePixels img w h).length = h * w := by
  intro h
  induction h with
  | zero => simp [enumeratePixels]
  | succ n ih =>
    unfold enumeratePixels at ih ⊢
    rw [List.range_succ, List.flatMap_append, List.length_append, ih]
    simp [Nat.succ_mul]

theorem foldl_packPixel_length (w : Nat) (pixels : List (Nat × Nat × Nat)) :
    ∀ buf : List Nat, (pixels.foldl (packPixel w) buf).length = buf.length := by
  induction pixels with
  | nil => intro buf; rfl
  | cons p rest ih =>
    intro buf
    rw [List.foldl_cons, ih]
    simp [packPixel]

theorem get_buffer_enum (img : Nat → Nat → Nat) (w h : Nat) :
    get_buffer (enumeratePixels img w h) w h =
      Except.ok ((enumeratePixels img w h).foldl (packPixel w)
        (List.replicate (w / 2 * h) 0xff)) := by
  rw [get_buffer, if_neg]
  simp [length_enumeratePixels]

theorem show_image_ok_fields (s : WS1in5) (buffer : List Nat) (x y w h : Nat)
    (ho : s.oracle = allTrue) (hlen : w / 2 * h ≤ buffer.length) :
    (show_image s buffer x y w h).1 = Except.ok ()
    ∧ (show_image s buffer x y w h).2.oracle = s.oracle := by
  rw [show_image_ok_char s buffer x y w h ho hlen]
  exact ⟨rfl, rfl⟩

theorem drawStep_fields (s : WS1in5) (buffer : List Nat) (x y w h : Nat) (flip : Bool)
    (ho : s.oracle = allTrue) (hlen : w / 2 * h ≤ buffer.length) :
    (drawStep s buffer x y w h flip).1 = Except.ok ()
    ∧ (drawStep s buffer x y w h flip).2.oracle = s.oracle := by
  cases flip
  · simpa [drawStep] using show_image_ok_fields s buffer x y w h ho hlen
  · simpa [drawStep] using
      show_image_ok_fields s buffer (usize_sub (usize_sub OLED_WIDTH w) x)
        (usize_sub (usize_sub OLED_HEIGHT h) y) w h ho hlen

theorem getOk_enum_length (img : Nat → Nat → Nat) (w h : Nat) :
    (getOk (get_buffer (enumeratePixels img w h) w h)).length = w / 2 * h := by
  rw [get_buffer_enum]
  show ((enumeratePixels img w h).foldl (packPixel w)
    (List.replicate (w / 2 * h) 0xff)).length = w / 2 * h
  rw [foldl_packPixel_length]
  simp

theorem charTrace_ws (f : FontRes) (flip : Bool) (p : Nat × Nat) (c : Char)
    (hw : c.isWhitespace = true) : charTrace f flip p c = [] := by
  simp [charTrace, hw]

theorem paraStep_acc (f : FontRes) (flip : Bool) :
    ∀ (text : List Char) (p : Nat × Nat) (acc : List Wire),
      (List.foldl (paraStep f flip) (p, acc) text).1 = List.foldl (cursorStep f) p text
      ∧ (List.foldl (paraStep f flip) (p, acc) text).2 =
          acc ++ (List.foldl (paraStep f flip) (p, []) text).2 := by
  intro text
  induction text with
  | nil =>
    intro p acc
    simp
  | cons c rest ih =>
    intro p acc
    rw [List.foldl_cons, List.foldl_cons, List.foldl_cons]
    constructor
    · rw [show paraStep f flip (p, acc) c = (cursorStep f p c, acc ++ charTrace f flip p c)
          from rfl,
        (ih (cursorStep f p c) (acc ++ charTrace f flip p c)).1]
    · rw [show paraStep f flip (p, acc) c = (cursorStep f p c, acc ++ charTrace f flip p c)
          from rfl,
        show paraStep f flip (p, []) c = (cursorStep f p c, [] ++ charTrace f flip p c)
          from rfl,
        (ih (cursorStep f p c) (acc ++ charTrace f flip p c)).2,
        (ih (cursorStep f p c) ([] ++ charTrace f flip p c)).2]
      simp [List.append_assoc]

theorem drawStep_trace (s : WS1in5) (f : FontRes) (x y : Nat) (c : Char) (flip : Bool)
    (hw : c.isWhitespace = false) (ho : s.oracle = allTrue) :
    (drawStep s
        ((enumeratePixels (create_text f [c]).1 (create_text f [c]).2.1
            (create_text f [c]).2.2).foldl (packPixel (create_text f [c]).2.1)
          (List.replicate ((create_text f [c]).2.1 / 2 * (create_text f [c]).2.2) 0xff))
        x y (create_text f [c]).2.1 (create_text f [c]).2.2 flip).2.trace =
      s.trace ++ charTrace f flip (x, y) c := by
  have hgb : getOk (get_buffer (enumeratePixels (create_text f [c]).1
      (create_text f [c]).2.1 (create_text f [c]).2.2) (create_text f [c]).2.1
      (create_text f [c]).2.2) =
      (enumeratePixels (create_text f [c]).1 (create_text f [c]).2.1
        (create_text f [c]).2.2).foldl (packPixel (create_text f [c]).2.1)
        (List.replicate ((create_text f [c]).2.1 / 2 * (create_text f [c]).2.2) 0xff) := by
    rw [get_buffer_enum]
    rfl
  have hlen : (create_text f [c]).2.1 / 2 * (create_text f [c]).2.2 ≤
      ((enumeratePixels (create_text f [c]).1 (create_text f [c]).2.1
          (create_text f [c]).2.2).foldl (packPixel (create_text f [c]).2.1)
        (List.replicate ((create_text f [c]).2.1 / 2 * (create_text f [c]).2.2)
          0xff)).length := by
    rw [foldl_packPixel_length]
    simp
  cases flip
  · rw [drawStep, if_neg (by simp),
      show_image_ok_char s _ x y (create_text f [c]).2.1 (create_text f [c]).2.2 ho hlen]
    simp only [charTrace, hw, Bool.false_eq_true, if_false, Bool.false_eq, ite_eq_right_iff]
    rw [rowMajorBytes_take _ _ _ hlen, hgb]
    simp [List.append_assoc]
  · rw [drawStep, if_pos rfl,
      show_image_ok_char s _ (usize_sub (usize_sub OLED_WIDTH (create_text f [c]).2.1) x)
        (usize_sub (usize_sub OLED_HEIGHT (create_text f [c]).2.2) y)
        (create_text f [c]).2.1 (create_text f [c]).2.2 ho hlen]
    simp only [charTrace, hw, Bool.false_eq_true, if_false, Bool.true_eq, ite_eq_right_iff]
    rw [rowMajorBytes_take _ _ _ hlen, hgb]
    simp [List.append_assoc]

theorem draw_paragraph_at_cons_ws (s : WS1in5) (f : FontRes) (x y : Nat) (c : Char)
    (rest : List Char) (flip : Bool) (hw : c.isWhitespace = true) :
    draw_paragraph_at s f x y (c :: rest) flip =
      if x + (create_text f ['_']).2.1 + (create_text f ['_']).2.1 > OLED_WIDTH then
        draw_paragraph_at s f 0 (y + (create_text f ['_']).2.2) rest flip
      else
        draw_paragraph_at s f (x + (create_text f ['_']).2.1) y rest flip := by
  simp only [draw_paragraph_at, hw, if_true, get_buffer_enum]

theorem draw_paragraph_at_cons_draw (s : WS1in5) (f : FontRes) (x y : Nat) (c : Char)
    (rest : List Char) (flip : Bool) (hw : c.isWhitespace = false)
    (ho : s.oracle = allTrue) :
    ∃ s2 : WS1in5, s2.oracle = s.oracle
      ∧ s2.trace = s.trace ++ charTrace f flip (x, y) c
      ∧ draw_paragraph_at s f x y (c :: rest) flip =
        (if x + (create_text f [c]).2.1 + (create_text f [c]).2.1 > OLED_WIDTH then
          draw_paragraph_at s2 f 0 (y + (create_text f [c]).2.2) rest flip
        else
          draw_paragraph_at s2 f (x + (create_text f [c]).2.1) y rest flip) := by
  have hlen : (create_text f [c]).2.1 / 2 * (create_text f [c]).2.2 ≤
      ((enumeratePixels (create_text f [c]).1 (create_text f [c]).2.1
          (create_text f [c]).2.2).foldl (packPixel (create_text f [c]).2.1)
        (List.replicate ((create_text f [c]).2.1 / 2 * (create_text f [c]).2.2)
          0xff)).length := by
    rw [foldl_packPixel_length]
    simp
  rcases hres : drawStep s
      ((enumeratePixels (create_text f [c]).1 (create_text f [c]).2.1
          (create_text f [c]).2.2).foldl (packPixel (create_text f [c]).2.1)
        (List.replicate ((create_text f [c]).2.1 / 2 * (create_text f [c]).2.2) 0xff))
      x y (create_text f [c]).2.1 (create_text f [c]).2.2 flip with ⟨r, s2⟩
  have hfields := drawStep_fields s _ x y (create_text f [c]).2.1 (create_text f [c]).2.2
    flip ho hlen
  rw [hres] at hfields
  have htr := drawStep_trace s f x y c flip hw ho
  rw [hres] at htr
  refine ⟨s2, hfields.2, htr, ?_⟩
  simp only [draw_paragraph_at, hw, Bool.false_eq_true, if_false, get_buffer_enum, hres]
  have h1 : r = Except.ok () := hfields.1
  subst h1
  rfl

theorem draw_paragraph_at_fold (f : FontRes) (flip : Bool) :
    ∀ (text : List Char) (s : WS1in5) (x y : Nat), s.oracle = allTrue →
      (draw_paragraph_at s f x y text flip).1 =
        Except.ok (List.foldl (cursorStep f) (x, y) text)
      ∧ (draw_paragraph_at s f x y text flip).2.oracle = s.oracle
      ∧ (draw_paragraph_at s f x y text flip).2.trace =
          s.trace ++ (List.foldl (paraStep f flip) ((x, y), []) text).2 := by
  intro text
  induction text with
  | nil =>
    intro s x y ho
    refine ⟨rfl, rfl, ?_⟩
    rw [show (draw_paragraph_at s f x y [] flip).2.trace = s.trace from rfl]
    simp
  | cons c rest ih =>
    intro s x y ho
    cases hw : c.isWhitespace
    · obtain ⟨s2, ho2, htr2, heq⟩ := draw_paragraph_at_cons_draw s f x y c rest flip hw ho
      have hcs : cursorStep f (x, y) c =
          if x + (create_text f [c]).2.1 + (create_text f [c]).2.1 > OLED_WIDTH then
            (0, y + (create_text f [c]).2.2)
          else (x + (create_text f [c]).2.1, y) := by
        simp [cursorStep, charDrawSize, hw]
      by_cases hwrap : x + (create_text f [c]).2.1 + (create_text f [c]).2.1 > OLED_WIDTH
      · rw [heq, if_pos hwrap]
        have hrec := ih s2 0 (y + (create_text f [c]).2.2) (ho2.trans ho)
        refine ⟨?_, hrec.2.1.trans ho2, ?_⟩
        · rw [hrec.1, List.foldl_cons, hcs, if_pos hwrap]
        · rw [hrec.2.2, htr2, List.foldl_cons,
            show paraStep f flip ((x, y), []) c =
              (cursorStep f (x, y) c, [] ++ charTrace f flip (x, y) c) from rfl,
            hcs, if_pos hwrap,
            (paraStep_acc f flip rest (0, y + (create_text f [c]).2.2)
              ([] ++ charTrace f flip (x, y) c)).2]
          simp [List.append_assoc]
      · rw [heq, if_neg hwrap]
        have hrec := ih s2 (x + (create_text f [c]).2.1) y (ho2.trans ho)
        refine ⟨?_, hrec.2.1.trans ho2, ?_⟩
        · rw [hrec.1, List.foldl_cons, hcs, if_neg hwrap]
        · rw [hrec.2.2, htr2, List.foldl_cons,
            show paraStep f flip ((x, y), []) c =
              (cursorStep f (x, y) c, [] ++ charTrace f flip (x, y) c) from rfl,
            hcs, if_neg hwrap,
            (paraStep_acc f flip rest (x + (create_text f [c]).2.1, y)
              ([] ++ charTrace f flip (x, y) c)).2]
          simp [List.append_assoc]
    · have hct2 : charTrace f flip (x, y) c = [] := charTrace_ws f flip (x, y) c hw
      have hcs : cursorStep f (x, y) c =
          if x + (create_text f ['_']).2.1 + (create_text f ['_']).2.1 > OLED_WIDTH then
            (0, y + (create_text f ['_']).2.2)
          else (x + (create_text f ['_']).2.1, y) := by
        simp [cursorStep, charDrawSize, hw]
      rw [draw_paragraph_at_cons_ws s f x y c rest flip hw]
      by_cases hwrap : x + (create_text f ['_']).2.1 + (create_text f ['_']).2.1 > OLED_WIDTH
      · rw [if_pos hwrap]
        have hrec := ih s 0 (y + (create_text f ['_']).2.2) ho
        refine ⟨?_, hrec.2.1, ?_⟩
        · rw [hrec.1, List.foldl_cons, hcs, if_pos hwrap]
        · rw [hrec.2.2, List.foldl_cons,
            show paraStep f flip ((x, y), []) c =
              (cursorStep f (x, y) c, [] ++ charTrace f flip (x, y) c) from rfl,
            hcs, if_pos hwrap, hct2]
          simp
      · rw [if_neg hwrap]
        have hrec := ih s (x + (create_text f ['_']).2.1) y ho
        refine ⟨?_, hrec.2.1, ?_⟩
        · rw [hrec.1, List.foldl_cons, hcs, if_neg hwrap]
        · rw [hrec.2.2, List.foldl_cons,
            show paraStep f flip ((x, y), []) c =
              (cursorStep f (x, y) c, [] ++ charTrace f flip (x, y) c) from rfl,
            hcs, if_neg hwrap, hct2]
          simp

/-! ### Measured-size parity lemmas -/

theorem size_to_pow_2_even (p : Int × Int) :
    (size_to_pow_2 p).1 % 2 = 0 ∧ (size_to_pow_2 p).2 % 2 = 0 := by
  rcases p with ⟨a, b⟩
  have h1 : a % 2 = 0 ∨ a % 2 = 1 := Int.emod_two_eq a
  have h2 : b % 2 = 0 ∨ b % 2 = 1 := Int.emod_two_eq b
  constructor
  · rcases h1 with h | h
    · simp [size_to_pow_2, h]
    · simp [size_to_pow_2, h]
      omega
  · rcases h2 with h | h
    · simp [size_to_pow_2, h]
    · simp [size_to_pow_2, h]
      omega

theorem create_text_width_even (f : FontRes) (text : List Char) :
    (create_text f text).2.1 % 2 = 0 := by
  unfold create_text get_text_size_full
  dsimp only
  have h := (size_to_pow_2_even (f.refMaxX - f.refMinX, f.lineHeight)).1
  have h2 : (size_to_pow_2 (f.refMaxX - f.refMinX, f.lineHeight)).1.toNat % 2 = 0 := by
    omega
  simp [Nat.mul_mod, h2]


/-! ### Claim C7: draw_paragraph_at cursor behaviour -/

set_option maxRecDepth 8000 in
/-- C7: `draw_paragraph_at` walks the characters left to right; its
returned cursor and its transport trace both refine a pure fold over
the text: each character contributes `charTrace` at the running
cursor — nothing for whitespace (measured via the underscore glyph,
drawn nowhere; a lone whitespace leaves the state untouched), and for
a non-whitespace character the windowing commands at the running
cursor followed by its full packed raster — while the cursor advances
by the character's width and wraps (x := 0, y += height) exactly when
the anticipated next cell `x + width` would exceed the panel width;
the final cursor is returned.  On "ab" with the 10 x 10 mock font
from `(0,0)` the cursor is `(10,0)` after 'a' and `(20,0)` after 'b',
no wrap, and the trace is 'a' drawn at `(0,0)` followed by 'b' drawn
at `(10,0)`. -/
theorem draw_paragraph_at_spec :
    (∀ (s : WS1in5) (f : FontRes) (x y : Nat) (text : List Char) (flip : Bool),
        s.oracle = allTrue →
        (draw_paragraph_at s f x y text flip).1 =
          Except.ok (List.foldl (cursorStep f) (x, y) text)
        ∧ (draw_paragraph_at s f x y text flip).2.trace =
            s.trace ++ (List.foldl (paraStep f flip) ((x, y), []) text).2)
    ∧ (∀ (f : FontRes) (flip : Bool) (p : Nat × Nat) (c : Char),
        c.isWhitespace = true → charTrace f flip p c = [])
    ∧ (∀ (s : WS1in5) (f : FontRes) (x y : Nat) (c : Char) (flip : Bool),
        s.oracle = allTrue → c.isWhitespace = true →
        (draw_paragraph_at s f x y [c] flip).2 = s)
    ∧ (∀ (f : FontRes) (p : Nat × Nat) (c : Char) (w h : Nat),
        c.isWhitespace = false →
        (create_text f [c]).2.1 = w → (create_text f [c]).2.2 = h →
        0 < w → 0 < h → p.1 + w ≤ 128 → p.2 + h ≤ 128 →
        charTrace f false p c =
          [Wire.cmd 0x15, Wire.cmd (p.1 / 2), Wire.cmd ((p.1 + w) / 2 - 1),
           Wire.cmd 0x75, Wire.cmd p.2, Wire.cmd (p.2 + h - 1)]
          ++ (getOk (get_buffer (enumeratePixels (create_text f [c]).1 w h) w h)).map
              Wire.data)
    ∧ List.foldl (cursorStep mockFont) (0, 0) ['a'] = (10, 0)
    ∧ List.foldl (cursorStep mockFont) (0, 0) ['a', 'b'] = (20, 0)
    ∧ (draw_paragraph_at (initScreen allTrue) mockFont 0 0 ['a', 'b'] false).1 =
        Except.ok (20, 0)
    ∧ (draw_paragraph_at (initScreen allTrue) mockFont 0 0 ['a', 'b'] false).2.trace =
        charTrace mockFont false (0, 0) 'a' ++ charTrace mockFont false (10, 0) 'b' := by
  refine ⟨?_, ?_, ?_, ?_, by decide, by decide, rfl, rfl⟩
  · intro s f x y text flip ho
    exact ⟨(draw_paragraph_at_fold f flip text s x y ho).1,
      (draw_paragraph_at_fold f flip text s x y ho).2.2⟩
  · intro f flip p c hw
    exact charTrace_ws f flip p c hw
  · intro s f x y c flip ho hw
    rw [draw_paragraph_at_cons_ws s f x y c [] flip hw]
    by_cases hwrap : x + (create_text f ['_']).2.1 + (create_text f ['_']).2.1 > OLED_WIDTH
    · rw [if_pos hwrap]
      rfl
    · rw [if_neg hwrap]
      rfl
  · intro f p c w h hw hwd hht hw0 hh0 hx hy
    have hweven : w % 2 = 0 := hwd ▸ create_text_width_even f [c]
    have hw2 : 2 ≤ w := by omega
    subst hwd
    subst hht
    simp only [charTrace, hw, Bool.false_eq_true, if_false]
    have hxm : p.1 % 256 = p.1 := Nat.mod_eq_of_lt (by omega)
    have hym : p.2 % 256 = p.2 := Nat.mod_eq_of_lt (by omega)
    have hwm : (create_text f [c]).2.1 % 256 = (create_text f [c]).2.1 :=
      Nat.mod_eq_of_lt (by omega)
    have hhm : (create_text f [c]).2.2 % 256 = (create_text f [c]).2.2 :=
      Nat.mod_eq_of_lt (by omega)
    rw [hxm, hym, hwm, hhm]
    have hxw : (p.1 + (create_text f [c]).2.1) % 256 = p.1 + (create_text f [c]).2.1 :=
      Nat.mod_eq_of_lt (by omega)
    have hyh : (p.2 + (create_text f [c]).2.2) % 256 = p.2 + (create_text f [c]).2.2 :=
      Nat.mod_eq_of_lt (by omega)
    rw [hxw, hyh]
    have hg : ¬ winOOB p.1 p.2 (p.1 + (create_text f [c]).2.1)
        (p.2 + (create_text f [c]).2.2) := by
      unfold winOOB OLED_WIDTH OLED_HEIGHT
      omega
    rw [if_neg hg]
    have e1 : ((p.1 + (create_text f [c]).2.1) / 2 + 255) % 256 =
        (p.1 + (create_text f [c]).2.1) / 2 - 1 := by omega
    have e2 : (p.2 + (create_text f [c]).2.2 + 255) % 256 =
        p.2 + (create_text f [c]).2.2 - 1 := by omega
    rw [List.take_of_length_le
      (le_of_eq (getOk_enum_length (create_text f [c]).1 (create_text f [c]).2.1
        (create_text f [c]).2.2))]
    simp [winCmds, e1, e2]

/-- Closed instance of `draw_paragraph_at_spec`: drawing "a" from the
origin with the mock font succeeds with cursor `(10, 0)` and appends
exactly its per-character trace; a lone space contributes no wires
and leaves the screen state untouched; 'b' at the advanced cursor
`(10, 0)` is windowed there and streams its packed raster. -/
theorem draw_paragraph_at_spec_witness :
    ((initScreen allTrue).oracle = allTrue)
    ∧ (Char.isWhitespace ' ' = true)
    ∧ (Char.isWhitespace 'b' = false)
    ∧ (draw_paragraph_at (initScreen allTrue) mockFont 0 0 ['a'] false).1 =
        Except.ok (10, 0)
    ∧ (draw_paragraph_at (initScreen allTrue) mockFont 0 0 ['a'] false).2.trace =
        (List.foldl (paraStep mockFont false) ((0, 0), []) ['a']).2
    ∧ charTrace mockFont false (3, 4) ' ' = []
    ∧ (draw_paragraph_at (initScreen allTrue) mockFont 3 4 [' '] false).2 =
        initScreen allTrue
    ∧ charTrace mockFont false (10, 0) 'b' =
        [Wire.cmd 0x15, Wire.cmd 5, Wire.cmd 9, Wire.cmd 0x75, Wire.cmd 0, Wire.cmd 9]
          ++ (getOk (get_buffer (enumeratePixels (create_text mockFont ['b']).1 10 10)
              10 10)).map Wire.data := by
  refine ⟨rfl, rfl, rfl, ?_, ?_, ?_, ?_, ?_⟩
  · exact (draw_paragraph_at_spec.1 (initScreen allTrue) mockFont 0 0 ['a'] false rfl).1
  · exact (draw_paragraph_at_spec.1 (initScreen allTrue) mockFont 0 0 ['a'] false rfl).2
  · exact draw_paragraph_at_spec.2.1 mockFont false (3, 4) ' ' rfl
  · exact draw_paragraph_at_spec.2.2.1 (initScreen allTrue) mockFont 3 4 ' ' false rfl rfl
  · exact draw_paragraph_at_spec.2.2.2.1 mockFont (10, 0) 'b' 10 10 rfl rfl rfl
      (by decide) (by decide) (by decide) (by decide)

/-! ### usize arithmetic and in-range drawStep characterization -/

theorem usize_sub_eq (a b : Nat) (hb : b ≤ a) (ha : a < 2 ^ 64) :
    usize_sub a b = a - b := by
  have h64 : (2 : Nat) ^ 64 = 18446744073709551616 := by norm_num
  unfold usize_sub
  rw [h64] at ha ⊢
  omega

theorem drawStep_char (s : WS1in5) (buffer : List Nat) (x y w h : Nat) (flip : Bool)
    (ho : s.oracle = allTrue) (hlen : w / 2 * h ≤ buffer.length)
    (hw2 : 2 ≤ w) (hh1 : 1 ≤ h) (hx : x + w ≤ 128) (hy : y + h ≤ 128) :
    drawStep s buffer x y w h flip =
      (Except.ok (), ⟨false,
        s.trace
          ++ [Wire.cmd 0x15, Wire.cmd ((if flip then 128 - w - x else x) / 2),
              Wire.cmd (((if flip then 128 - w - x else x) + w) / 2 - 1),
              Wire.cmd 0x75, Wire.cmd (if flip then 128 - h - y else y),
              Wire.cmd ((if flip then 128 - h - y else y) + h - 1)]
          ++ (buffer.take (w / 2 * h)).map Wire.data,
        s.tick + 6 + (rowMajorBytes buffer w h).length, s.oracle⟩) := by
  have h64 : (128 : Nat) < 2 ^ 64 := by norm_num
  cases flip
  · rw [drawStep, if_neg (by simp)]
    rw [show_image_ok_char s buffer x y w h ho hlen]
    have hxm : x % 256 = x := Nat.mod_eq_of_lt (by omega)
    have hym : y % 256 = y := Nat.mod_eq_of_lt (by omega)
    have hwm : w % 256 = w := Nat.mod_eq_of_lt (by omega)
    have hhm : h % 256 = h := Nat.mod_eq_of_lt (by omega)
    rw [hxm, hym, hwm, hhm]
    have hxw : (x + w) % 256 = x + w := Nat.mod_eq_of_lt (by omega)
    have hyh : (y + h) % 256 = y + h := Nat.mod_eq_of_lt (by omega)
    rw [hxw, hyh]
    have hg : ¬ winOOB x y (x + w) (y + h) := by
      unfold winOOB OLED_WIDTH OLED_HEIGHT
      omega
    rw [if_neg hg, if_neg hg]
    have e1 : ((x + w) / 2 + 255) % 256 = (x + w) / 2 - 1 := by omega
    have e2 : (y + h + 255) % 256 = y + h - 1 := by omega
    simp [winCmds, e1, e2, rowMajorBytes_take buffer w h hlen, List.append_assoc]
  · rw [drawStep, if_pos rfl]
    have hu1 : usize_sub 128 w = 128 - w := usize_sub_eq 128 w (by omega) h64
    have hu2 : usize_sub (128 - w) x = 128 - w - x :=
      usize_sub_eq (128 - w) x (by omega) (by omega)
    have hu3 : usize_sub 128 h = 128 - h := usize_sub_eq 128 h (by omega) h64
    have hu4 : usize_sub (128 - h) y = 128 - h - y :=
      usize_sub_eq (128 - h) y (by omega) (by omega)
    have hOW : OLED_WIDTH = 128 := rfl
    have hOH : OLED_HEIGHT = 128 := rfl
    rw [hOW, hOH, hu1, hu3, hu2, hu4,
      show_image_ok_char s buffer (128 - w - x) (128 - h - y) w h ho hlen]
    have hxm : (128 - w - x) % 256 = 128 - w - x := Nat.mod_eq_of_lt (by omega)
    have hym : (128 - h - y) % 256 = 128 - h - y := Nat.mod_eq_of_lt (by omega)
    have hwm : w % 256 = w := Nat.mod_eq_of_lt (by omega)
    have hhm : h % 256 = h := Nat.mod_eq_of_lt (by omega)
    rw [hxm, hym, hwm, hhm]
    have hxw : (128 - w - x + w) % 256 = 128 - w - x + w := Nat.mod_eq_of_lt (by omega)
    have hyh : (128 - h - y + h) % 256 = 128 - h - y + h := Nat.mod_eq_of_lt (by omega)
    rw [hxw, hyh]
    have hg : ¬ winOOB (128 - w - x) (128 - h - y) (128 - w - x + w) (128 - h - y + h) := by
      unfold winOOB OLED_WIDTH OLED_HEIGHT
      omega
    rw [if_neg hg, if_neg hg]
    have e1 : ((128 - w - x + w) / 2 + 255) % 256 = (128 - w - x + w) / 2 - 1 := by omega
    have e2 : (128 - h - y + h + 255) % 256 = 128 - h - y + h - 1 := by omega
    simp [winCmds, e1, e2, rowMajorBytes_take buffer w h hlen, List.append_assoc]

/-! ### Claim C6: draw_text placement, flip mirroring, cursor advance -/

/-- C6: `draw_text` windows the panel at `(x, y)` when `flip` is
false and at `(128 - width - x, 128 - height - y)` when `flip` is
true (for on-screen placements), streams the packed rasterized text
there, and returns the cursor advance `(x + width, y + height)` in
both cases. -/
theorem draw_text_spec (s : WS1in5) (f : FontRes) (x y : Nat) (text : List Char)
    (flip : Bool) (wd ht : Nat)
    (hwd : (create_text f text).2.1 = wd) (hht : (create_text f text).2.2 = ht)
    (ho : s.oracle = allTrue) (hw0 : 0 < wd) (hh0 : 0 < ht)
    (hx : x + wd ≤ 128) (hy : y + ht ≤ 128) :
    (draw_text s f x y text flip).1 = Except.ok (x + wd, y + ht)
    ∧ (draw_text s f x y text flip).2.trace =
        s.trace
          ++ [Wire.cmd 0x15,
              Wire.cmd ((if flip then 128 - wd - x else x) / 2),
              Wire.cmd (((if flip then 128 - wd - x else x) + wd) / 2 - 1),
              Wire.cmd 0x75,
              Wire.cmd (if flip then 128 - ht - y else y),
              Wire.cmd ((if flip then 128 - ht - y else y) + ht - 1)]
          ++ (getOk (get_buffer (enumeratePixels (create_text f text).1 wd ht) wd ht)).map
              Wire.data := by
  have hweven : wd % 2 = 0 := hwd ▸ create_text_width_even f text
  have hw2 : 2 ≤ wd := by omega
  subst hwd
  subst hht
  have hlen : (create_text f text).2.1 / 2 * (create_text f text).2.2 ≤
      ((enumeratePixels (create_text f text).1 (create_text f text).2.1
          (create_text f text).2.2).foldl (packPixel (create_text f text).2.1)
        (List.replicate ((create_text f text).2.1 / 2 * (create_text f text).2.2)
          0xff)).length := by
    rw [foldl_packPixel_length]
    simp
  simp only [draw_text, get_buffer_enum, getOk]
  rw [drawStep_char s _ x y (create_text f text).2.1 (create_text f text).2.2 flip ho hlen
    hw2 (by omega) hx hy]
  refine ⟨rfl, ?_⟩
  dsimp only
  rw [List.take_of_length_le (by rw [foldl_packPixel_length]; simp)]

/-- Closed instance of `draw_text_spec` with the mock font. -/
theorem draw_text_spec_witness :
    ((create_text mockFont ['a']).2.1 = 10)
    ∧ ((create_text mockFont ['a']).2.2 = 10)
    ∧ ((initScreen allTrue).oracle = allTrue)
    ∧ ((0 : Nat) < 10)
    ∧ ((0 : Nat) + 10 ≤ 128)
    ∧ (draw_text (initScreen allTrue) mockFont 0 0 ['a'] false).1 = Except.ok (10, 10)
    ∧ (draw_text (initScreen allTrue) mockFont 0 0 ['a'] false).2.trace =
        [Wire.cmd 0x15, Wire.cmd 0, Wire.cmd 4, Wire.cmd 0x75, Wire.cmd 0, Wire.cmd 9]
          ++ (getOk (get_buffer (enumeratePixels (create_text mockFont ['a']).1 10 10)
              10 10)).map Wire.data := by
  have h := draw_text_spec (initScreen allTrue) mockFont 0 0 ['a'] false 10 10 rfl rfl rfl
    (by decide) (by decide) (by decide) (by decide)
  exact ⟨rfl, rfl, rfl, by decide, by decide, h.1, h.2⟩

/-! ### Byte-level lemmas for the packing loop -/

theorem pk_even : ∀ h1 < 16, ∀ l < 16, ∀ c < 16,
    (16 * h1 + l) &&& ((16 * h1 + l) &&& u8_ror (u8_not 0xf0) 0 ||| c <<< 4 >>> 0) =
      16 * (h1 &&& c) + l := by
  decide

theorem pk_odd : ∀ h1 < 16, ∀ l < 16, ∀ c < 16,
    (16 * h1 + l) &&& ((16 * h1 + l) &&& u8_ror (u8_not 0xf0) 4 ||| c <<< 4 >>> 4) =
      16 * h1 + (l &&& c) := by
  decide

theorem land_lt_16 : ∀ a < 16, ∀ b < 16, a &&& b < 16 := by
  decide

theorem land_15 : ∀ c < 16, 15 &&& c = c := by
  decide

theorem packByte_even (b c : Nat) (hb : b < 256) (hc : c < 16) :
    b &&& (b &&& u8_ror (u8_not 0xf0) 0 ||| c <<< 4 >>> 0) =
      16 * (b / 16 &&& c) + b % 16 := by
  obtain ⟨h1, l, hh1, hl, rfl⟩ : ∃ h1 l, h1 < 16 ∧ l < 16 ∧ b = 16 * h1 + l :=
    ⟨b / 16, b % 16, by omega, by omega, by omega⟩
  have e1 : (16 * h1 + l) / 16 = h1 := by omega
  have e2 : (16 * h1 + l) % 16 = l := by omega
  rw [e1, e2]
  exact pk_even h1 hh1 l hl c hc

theorem packByte_odd (b c : Nat) (hb : b < 256) (hc : c < 16) :
    b &&& (b &&& u8_ror (u8_not 0xf0) 4 ||| c <<< 4 >>> 4) =
      16 * (b / 16) + (b % 16 &&& c) := by
  obtain ⟨h1, l, hh1, hl, rfl⟩ : ∃ h1 l, h1 < 16 ∧ l < 16 ∧ b = 16 * h1 + l :=
    ⟨b / 16, b % 16, by omega, by omega, by omega⟩
  have e1 : (16 * h1 + l) / 16 = h1 := by omega
  have e2 : (16 * h1 + l) % 16 = l := by omega
  rw [e1, e2]
  exact pk_odd h1 hh1 l hl c hc

/-! ### Packed-address lemmas -/

theorem addr_lt (width height x y : Nat) (hw : width % 2 = 0) (hx : x < width)
    (hy : y < height) : x / 2 + y * (width / 2) < width / 2 * height := by
  have hm : x / 2 < width / 2 := by omega
  have h1 : (y + 1) * (width / 2) = y * (width / 2) + width / 2 := by ring
  have h2 : (y + 1) * (width / 2) ≤ height * (width / 2) :=
    Nat.mul_le_mul_right _ hy
  have h3 : height * (width / 2) = width / 2 * height := Nat.mul_comm _ _
  omega

theorem addr_inj (m a b y y2 : Nat) (ha : a < m) (hb : b < m)
    (h : a + y * m = b + y2 * m) : a = b ∧ y = y2 := by
  have hm : 0 < m := lt_of_le_of_lt (Nat.zero_le a) ha
  have he : a = b := by
    have h1 : (a + y * m) % m = (b + y2 * m) % m := by rw [h]
    rwa [Nat.add_mul_mod_self_right, Nat.add_mul_mod_self_right,
      Nat.mod_eq_of_lt ha, Nat.mod_eq_of_lt hb] at h1
  refine ⟨he, ?_⟩
  subst he
  have h2 : y * m = y2 * m := by omega
  exact Nat.eq_of_mul_eq_mul_right hm h2

/-! ### getD/set helpers -/

theorem getD_set_self (l : List Nat) (i v : Nat) (h : i < l.length) :
    (l.set i v).getD i 0 = v := by
  rw [List.getD_eq_getElem _ 0 (by simpa using h)]
  exact List.getElem_set_self _

theorem getD_set_ne (l : List Nat) (i j v : Nat) (hne : i ≠ j) :
    (l.set i v).getD j 0 = l.getD j 0 := by
  rw [List.getD_eq_getElem?_getD, List.getD_eq_getElem?_getD, List.getElem?_set_ne hne]

theorem getD_replicate (n i a : Nat) (h : i < n) :
    (List.replicate n a).getD i 0 = a := by
  rw [List.getD_eq_getElem _ 0 (by simpa using h)]
  exact List.getElem_replicate _ _

/-- One packing step: the processed pixel's nibble is ANDed with its
4-bit gray (from the 0xFF fill this is the first write, so it becomes
the gray), every other nibble — including the sibling nibble in the
same byte — is untouched, and lengths/byte-bounds are preserved. -/
theorem packPixel_step (width height : Nat) (hw : width % 2 = 0) (buf : List Nat)
    (hlen : buf.length = width / 2 * height) (hb : ∀ b ∈ buf, b < 256)
    (x y g : Nat) (hx : x < width) (hy : y < height) :
    (packPixel width buf (x, y, g)).length = buf.length
    ∧ (∀ b ∈ packPixel width buf (x, y, g), b < 256)
    ∧ nibAt width (packPixel width buf (x, y, g)) x y = nibAt width buf x y &&& (g % 16)
    ∧ (∀ x2 y2, x2 < width → y2 < height → (x2, y2) ≠ (x, y) →
        nibAt width (packPixel width buf (x, y, g)) x2 y2 = nibAt width buf x2 y2) := by
  have haddr : x / 2 + y * (width / 2) < buf.length := by
    rw [hlen]
    exact addr_lt width height x y hw hx hy
  have hbyte : buf.getD (x / 2 + y * (width / 2)) 0 < 256 := by
    rw [List.getD_eq_getElem _ 0 haddr]
    exact hb _ (List.getElem_mem haddr)
  have hc : g % 16 < 16 := Nat.mod_lt _ (by norm_num)
  have hpp : packPixel width buf (x, y, g) =
      buf.set (x / 2 + y * (width / 2))
        (buf.getD (x / 2 + y * (width / 2)) 0 &&&
          (buf.getD (x / 2 + y * (width / 2)) 0 &&& u8_ror (u8_not 0xf0) (x % 2 * 4) |||
            (g % 16) <<< 4 >>> (x % 2 * 4))) := rfl
  rcases Nat.mod_two_eq_zero_or_one x with hpar | hpar
  · rw [hpar] at hpp
    simp only [Nat.zero_mul] at hpp
    rw [packByte_even (buf.getD (x / 2 + y * (width / 2)) 0) (g % 16) hbyte hc] at hpp
    have hlt := land_lt_16 (buf.getD (x / 2 + y * (width / 2)) 0 / 16) (by omega) (g % 16) hc
    refine ⟨by simp [packPixel], ?_, ?_, ?_⟩
    · intro b hbm
      rw [hpp] at hbm
      rcases List.mem_or_eq_of_mem_set hbm with hmem | rfl
      · exact hb _ hmem
      · omega
    · rw [hpp]
      simp only [nibAt]
      rw [if_pos hpar, if_pos hpar, getD_set_self _ _ _ haddr]
      omega
    · intro x2 y2 hx2 hy2 hne
      by_cases heq : x2 / 2 + y2 * (width / 2) = x / 2 + y * (width / 2)
      · have hinj := addr_inj (width / 2) (x2 / 2) (x / 2) y2 y (by omega) (by omega) heq
        have hxne : x2 ≠ x := by
          intro hc2
          exact hne (by rw [hc2, hinj.2])
        have hpar2 : x2 % 2 = 1 := by omega
        rw [hpp]
        simp only [nibAt]
        rw [if_neg (show ¬ x2 % 2 = 0 by omega), if_neg (show ¬ x2 % 2 = 0 by omega),
          heq, getD_set_self _ _ _ haddr]
        omega
      · rw [hpp]
        simp only [nibAt]
        rw [getD_set_ne _ _ _ _ (fun hcc => heq hcc.symm)]
  · rw [hpar] at hpp
    simp only [Nat.one_mul] at hpp
    rw [packByte_odd (buf.getD (x / 2 + y * (width / 2)) 0) (g % 16) hbyte hc] at hpp
    have hlt := land_lt_16 (buf.getD (x / 2 + y * (width / 2)) 0 % 16) (by omega) (g % 16) hc
    refine ⟨by simp [packPixel], ?_, ?_, ?_⟩
    · intro b hbm
      rw [hpp] at hbm
      rcases List.mem_or_eq_of_mem_set hbm with hmem | rfl
      · exact hb _ hmem
      · omega
    · rw [hpp]
      simp only [nibAt]
      rw [if_neg (show ¬ x % 2 = 0 by omega), if_neg (show ¬ x % 2 = 0 by omega),
        getD_set_self _ _ _ haddr]
      omega
    · intro x2 y2 hx2 hy2 hne
      by_cases heq : x2 / 2 + y2 * (width / 2) = x / 2 + y * (width / 2)
      · have hinj := addr_inj (width / 2) (x2 / 2) (x / 2) y2 y (by omega) (by omega) heq
        have hxne : x2 ≠ x := by
          intro hc2
          exact hne (by rw [hc2, hinj.2])
        have hpar2 : x2 % 2 = 0 := by omega
        rw [hpp]
        simp only [nibAt]
        rw [if_pos hpar2, if_pos hpar2, heq, getD_set_self _ _ _ haddr]
        omega
      · rw [hpp]
        simp only [nibAt]
        rw [getD_set_ne _ _ _ _ (fun hcc => heq hcc.symm)]

/-- The packing fold: every processed pixel's nibble holds its old
value ANDed with the 4-bit gray, untouched nibbles keep their value,
lengths and byte bounds are preserved. -/
theorem foldl_packPixel_spec (width height : Nat) (hw : width % 2 = 0) :
    ∀ (pixels : List (Nat × Nat × Nat)) (buf : List Nat),
      buf.length = width / 2 * height →
      (∀ b ∈ buf, b < 256) →
      (∀ p ∈ pixels, p.1 < width ∧ p.2.1 < height) →
      (pixels.map fun p => (p.1, p.2.1)).Nodup →
      (∀ b ∈ pixels.foldl (packPixel width) buf, b < 256)
      ∧ (∀ x y, x < width → y < height →
          (x, y) ∉ pixels.map (fun p => (p.1, p.2.1)) →
          nibAt width (pixels.foldl (packPixel width) buf) x y = nibAt width buf x y)
      ∧ (∀ p ∈ pixels,
          nibAt width (pixels.foldl (packPixel width) buf) p.1 p.2.1 =
            nibAt width buf p.1 p.2.1 &&& (p.2.2 % 16)) := by
  intro pixels
  induction pixels with
  | nil =>
    intro buf hlen hb hin hnd
    exact ⟨hb, fun x y _ _ _ => rfl, fun p hp => absurd hp (List.not_mem_nil p)⟩
  | cons q rest ih =>
    intro buf hlen hb hin hnd
    rcases q with ⟨qx, qy, qg⟩
    have hq := hin _ (List.mem_cons_self _ _)
    have hstep := packPixel_step width height hw buf hlen hb qx qy qg hq.1 hq.2
    have hlen1 : (packPixel width buf (qx, qy, qg)).length = width / 2 * height := by
      rw [hstep.1, hlen]
    have hin1 : ∀ p ∈ rest, p.1 < width ∧ p.2.1 < height :=
      fun p hp => hin p (List.mem_cons_of_mem _ hp)
    have hnd2 : ((qx, qy) :: rest.map fun p => (p.1, p.2.1)).Nodup := by
      rw [List.map_cons] at hnd
      exact hnd
    have hndc := List.nodup_cons.mp hnd2
    have ihres := ih (packPixel width buf (qx, qy, qg)) hlen1 hstep.2.1 hin1 hndc.2
    rw [List.foldl_cons]
    refine ⟨ihres.1, ?_, ?_⟩
    · intro x y hx hy hmem
      have hmem1 : (x, y) ∉ rest.map fun p => (p.1, p.2.1) := by
        intro hcon
        apply hmem
        rw [List.map_cons]
        exact List.mem_cons_of_mem _ hcon
      have hne : (x, y) ≠ (qx, qy) := by
        intro hcon
        apply hmem
        rw [List.map_cons, hcon]
        exact List.mem_cons_self _ _
      rw [ihres.2.1 x y hx hy hmem1, hstep.2.2.2 x y hx hy hne]
    · intro p hp
      rcases List.mem_cons.mp hp with rfl | hp2
      · rw [ihres.2.1 qx qy hq.1 hq.2 hndc.1, hstep.2.2.1]
      · have hpin := hin1 p hp2
        have hpne : (p.1, p.2.1) ≠ (qx, qy) := by
          intro hcon
          apply hndc.1
          rw [← hcon]
          exact List.mem_map_of_mem _ hp2
        rw [ihres.2.2 p hp2, hstep.2.2.2 p.1 p.2.1 hpin.1 hpin.2 hpne]

/-! ### Claim C1: get_buffer packing correctness -/

/-- C1: for even `width` and `height` and a pixel stream whose
coordinates lie in `width x height`, each position occurring once:
a count different from `width*height` yields `OutOfBounds`; otherwise
the result is a buffer of exactly `(width/2)*height` bytes in which
pixel `(x, y)` holds `gray % 16` in the high nibble of byte
`x/2 + y*(width/2)` when `x` is even and in the low nibble when `x`
is odd, and any nibble covering no written pixel keeps the 0xFF
fill (value 15). -/
theorem get_buffer_spec (width height : Nat) (pixels : List (Nat × Nat × Nat))
    (hw : width % 2 = 0) (_hh : height % 2 = 0)
    (hin : ∀ p ∈ pixels, p.1 < width ∧ p.2.1 < height)
    (hnd : (pixels.map fun p => (p.1, p.2.1)).Nodup) :
    (pixels.length ≠ width * height →
      get_buffer pixels width height = Except.error Error.OutOfBounds)
    ∧ (pixels.length = width * height →
        get_buffer pixels width height = Except.ok (getOk (get_buffer pixels width height))
        ∧ (getOk (get_buffer pixels width height)).length = width / 2 * height
        ∧ (∀ p ∈ pixels,
            (p.1 % 2 = 0 →
              (getOk (get_buffer pixels width height)).getD
                  (p.1 / 2 + p.2.1 * (width / 2)) 0 / 16 = p.2.2 % 16)
            ∧ (p.1 % 2 = 1 →
              (getOk (get_buffer pixels width height)).getD
                  (p.1 / 2 + p.2.1 * (width / 2)) 0 % 16 = p.2.2 % 16))
        ∧ (∀ x y, x < width → y < height →
            (x, y) ∉ pixels.map (fun p => (p.1, p.2.1)) →
            nibAt width (getOk (get_buffer pixels width height)) x y = 15)) := by
  constructor
  · intro hne
    rw [get_buffer, if_pos]
    rw [Nat.mul_comm height width]
    exact hne
  · intro heq
    have hok : get_buffer pixels width height =
        Except.ok (pixels.foldl (packPixel width)
          (List.replicate (width / 2 * height) 0xff)) := by
      rw [get_buffer, if_neg]
      rw [Nat.mul_comm height width]
      simp [heq]
    have he : getOk (get_buffer pixels width height) =
        pixels.foldl (packPixel width) (List.replicate (width / 2 * height) 0xff) := by
      rw [hok]
      rfl
    have hbase : ∀ b ∈ List.replicate (width / 2 * height) 0xff, b < 256 := by
      intro b hbm
      rcases List.mem_replicate.mp hbm with ⟨_, rfl⟩
      norm_num
    have hfold := foldl_packPixel_spec width height hw pixels
      (List.replicate (width / 2 * height) 0xff) (by simp) hbase hin hnd
    have hnib0 : ∀ x y, x < width → y < height →
        nibAt width (List.replicate (width / 2 * height) 0xff) x y = 15 := by
      intro x y hx hy
      have haddr := addr_lt width height x y hw hx hy
      rcases Nat.mod_two_eq_zero_or_one x with hp | hp
      · rw [nibAt, if_pos hp, getD_replicate _ _ _ haddr]
      · rw [nibAt, if_neg (show ¬ x % 2 = 0 by omega), getD_replicate _ _ _ haddr]
    refine ⟨by rw [he, hok], ?_, ?_, ?_⟩
    · rw [he, foldl_packPixel_length]
      simp
    · intro p hp
      have hpin := hin p hp
      have hself := hfold.2.2 p hp
      rw [hnib0 p.1 p.2.1 hpin.1 hpin.2] at hself
      rw [land_15 (p.2.2 % 16) (Nat.mod_lt _ (by norm_num))] at hself
      rw [he]
      constructor
      · intro hpar
        rw [nibAt, if_pos hpar] at hself
        exact hself
      · intro hpar
        rw [nibAt, if_neg (show ¬ p.1 % 2 = 0 by omega)] at hself
        exact hself
    · intro x y hx hy hmem
      rw [he, hfold.2.1 x y hx hy hmem, hnib0 x y hx hy]

/-- Closed instance of `get_buffer_spec` on a 2 x 2 image: the packed
bytes are 0x24 (pixels 0x12 and 0x34) and 0x5F (pixels 5 and 0xFF),
and a 3-pixel stream for the same size is OutOfBounds. -/
theorem get_buffer_spec_witness :
    ((2 : Nat) % 2 = 0)
    ∧ (∀ p ∈ [((0 : Nat), (0 : Nat), (0x12 : Nat)), (1, 0, 0x34), (0, 1, 5), (1, 1, 0xFF)],
        p.1 < 2 ∧ p.2.1 < 2)
    ∧ ([((0 : Nat), (0 : Nat), (0x12 : Nat)), (1, 0, 0x34), (0, 1, 5), (1, 1, 0xFF)].map
        fun p => (p.1, p.2.1)).Nodup
    ∧ get_buffer [((0 : Nat), (0 : Nat), (0x12 : Nat)), (1, 0, 0x34), (0, 1, 5), (1, 1, 0xFF)]
        2 2 = Except.ok [0x24, 0x5F]
    ∧ (getOk (get_buffer [((0 : Nat), (0 : Nat), (0x12 : Nat)), (1, 0, 0x34), (0, 1, 5),
        (1, 1, 0xFF)] 2 2)).getD (0 / 2 + 0 * (2 / 2)) 0 / 16 = 0x12 % 16
    ∧ get_buffer [((0 : Nat), (0 : Nat), (0x12 : Nat)), (1, 0, 0x34), (0, 1, 5)] 2 2 =
        Except.error Error.OutOfBounds := by
  refine ⟨by decide, by decide, by decide, rfl, ?_, ?_⟩
  · exact (((get_buffer_spec 2 2
      [((0 : Nat), (0 : Nat), (0x12 : Nat)), (1, 0, 0x34), (0, 1, 5), (1, 1, 0xFF)]
      (by decide) (by decide) (by decide) (by decide)).2 (by decide)).2.2.1
      ((0 : Nat), (0 : Nat), (0x12 : Nat)) (by decide)).1 (by decide)
  · exact (get_buffer_spec 2 2
      [((0 : Nat), (0 : Nat), (0x12 : Nat)), (1, 0, 0x34), (0, 1, 5)]
      (by decide) (by decide) (by decide) (by decide)).1 (by decide)

/-! ### Claim C9: panic-freedom of the core under its guards -/

/-- C9 (amended): with wrapping (release-profile) integer semantics
the window-addressing arithmetic stays inside `u8` for every
in-bounds window, `show_image`'s streaming loop never reads past the
length its guard established (its result cannot depend on bytes
beyond `(width/2)*height`), and `get_buffer`'s packing writes stay
inside the allocated buffer provided the stream's coordinates lie
within the declared `width x height`. -/
theorem no_panic_model :
    (∀ xstart ystart xend yend : Nat,
        ¬ winOOB xstart ystart xend yend →
        ∀ b ∈ winCmds xstart ystart xend yend, b < 256)
    ∧ (∀ (s : WS1in5) (buffer ext : List Nat) (x y width height : Nat),
        width / 2 * height ≤ buffer.length →
        show_image s (buffer ++ ext) x y width height =
          show_image s buffer x y width height)
    ∧ (∀ (width height : Nat) (pixels : List (Nat × Nat × Nat)),
        width % 2 = 0 →
        (∀ p ∈ pixels, p.1 < width ∧ p.2.1 < height) →
        ∀ buf2, get_buffer pixels width height = Except.ok buf2 →
          ∀ p ∈ pixels, p.1 / 2 + p.2.1 * (width / 2) < buf2.length) := by
  refine ⟨?_, ?_, ?_⟩
  · intro xs ys xe ye hok b hbm
    unfold winOOB OLED_WIDTH OLED_HEIGHT at hok
    simp [winCmds] at hbm
    rcases hbm with rfl | rfl | rfl | rfl | rfl | rfl <;> omega
  · intro s buffer ext x y w h hlen
    have hlenE : w / 2 * h ≤ (buffer ++ ext).length := by
      rw [List.length_append]
      omega
    have hA : ((buffer ++ ext).length < w / 2 * h) = False :=
      eq_false (Nat.not_lt.mpr hlenE)
    have hB : (buffer.length < w / 2 * h) = False :=
      eq_false (Nat.not_lt.mpr hlen)
    have hrow : rowMajorBytes (buffer ++ ext) w h = rowMajorBytes buffer w h := by
      rw [rowMajorBytes_take _ _ _ hlenE, rowMajorBytes_take _ _ _ hlen]
      exact List.take_append_of_le_length hlen
    simp only [show_image, hrow, hA, hB, if_false]
  · intro w h pixels hw hin buf2 hbuf p hp
    rw [get_buffer] at hbuf
    have hb2 : pixels.foldl (packPixel w) (List.replicate (w / 2 * h) 0xff) = buf2 := by
      by_cases hcond : pixels.length ≠ h * w
      · rw [if_pos hcond] at hbuf
        injection hbuf
      · rw [if_neg hcond] at hbuf
        injection hbuf
    have hlen2 : buf2.length = w / 2 * h := by
      rw [← hb2, foldl_packPixel_length]
      simp
    rw [hlen2]
    exact addr_lt w h p.1 p.2.1 hw (hin p hp).1 (hin p hp).2

/-- C9 counterexample to the claim as stated: `get_buffer` applied to
the enumeration of a 1 x 2 image with declared size 2 x 1 passes the
count check, yet the second pixel's packed address (1) falls outside
the 1-byte allocation — the Rust source indexes `buf[1]` there and
panics, a reachable panic not in the claim's exception list. -/
theorem get_buffer_oob_access :
    get_buffer [((0 : Nat), (0 : Nat), (0 : Nat)), (0, 1, 0)] 2 1 = Except.ok [0x0F]
    ∧ ([((0 : Nat), (0 : Nat), (0 : Nat)), (0, 1, 0)].length = 2 * 1)
    ∧ (((0 : Nat), (1 : Nat), (0 : Nat)) ∈ [((0 : Nat), (0 : Nat), (0 : Nat)), (0, 1, 0)])
    ∧ ¬ ((0 : Nat) / 2 + 1 * (2 / 2) <
        (getOk (get_buffer [((0 : Nat), (0 : Nat), (0 : Nat)), (0, 1, 0)] 2 1)).length) := by
  exact ⟨rfl, by decide, by decide, by decide⟩

/-- Closed instance of `no_panic_model`. -/
theorem no_panic_model_witness :
    (¬ winOOB 0 0 2 1)
    ∧ (∀ b ∈ winCmds 0 0 2 1, b < 256)
    ∧ ((2 : Nat) / 2 * 1 ≤ ([7] : List Nat).length)
    ∧ show_image (initScreen allTrue) ([7] ++ [8]) 0 0 2 1 =
        show_image (initScreen allTrue) [7] 0 0 2 1
    ∧ ((2 : Nat) % 2 = 0)
    ∧ (∀ p ∈ [((0 : Nat), (0 : Nat), (3 : Nat)), (1, 0, 4)], p.1 < 2 ∧ p.2.1 < 1)
    ∧ (∀ p ∈ [((0 : Nat), (0 : Nat), (3 : Nat)), (1, 0, 4)],
        p.1 / 2 + p.2.1 * (2 / 2) <
          (getOk (get_buffer [((0 : Nat), (0 : Nat), (3 : Nat)), (1, 0, 4)] 2 1)).length) := by
  refine ⟨by decide, ?_, by decide, ?_, by decide, by decide, ?_⟩
  · exact no_panic_model.1 0 0 2 1 (by decide)
  · exact no_panic_model.2.1 (initScreen allTrue) [7] [8] 0 0 2 1 (by decide)
  · exact no_panic_model.2.2 2 1 [((0 : Nat), (0 : Nat), (3 : Nat)), (1, 0, 4)]
      (by decide) (by decide)
      (getOk (get_buffer [((0 : Nat), (0 : Nat), (3 : Nat)), (1, 0, 4)] 2 1)) rfl

end Oled
